import Mathlib

/-!
Verification of the `auth-rs` authenticated-data-structure library.

The development shallowly embeds `src/lib.rs`:

* `HashCode` models `Output<Sha1>` (a 20-byte digest) as a list of bytes;
  the SHA-1 compression itself is an externally supplied primitive
  (`sha1` crate), so the semantics are parameterised over an arbitrary
  digest function `hashStr : String → HashCode`.
* `Proof`, `Prover`, `Verifier` and the `Db` capability mirror the Rust
  structures; panics (`unwrap`, `assert_eq!`) are modelled as `Except Err`.
* Traversal code "written against the `Db` capability" is embedded as a
  free-monad type `Prog` over a universe `Univ` of serializable types,
  mirroring the `A : Serialize + DeserializeOwned` bound of the trait.
* The binary-tree example from the test module is embedded concretely.
-/

namespace AuthRs

/-- Models `type HashCode = Output<Sha1>` — approximately `[u8; 20]`.
We use a list of bytes; `HashCode.Wf` states the type-level facts of
`[u8; 20]` (length 20, each entry a byte). -/
abbrev HashCode : Type := List Nat

/-- Well-formedness of a digest: exactly 20 entries, each a byte.
In Rust this is enforced by the type `[u8; 20]`. -/
def HashCode.Wf (h : HashCode) : Prop := h.length = 20 ∧ ∀ b ∈ h, b < 256

instance (h : HashCode) : Decidable h.Wf := by
  unfold HashCode.Wf; infer_instance

/-! ### Lowercase hex encoding (the `hex` crate) -/

/-- Lowercase hex digit for a nibble, as produced by `hex::encode`. -/
def hexDigitChar (n : Nat) : Char :=
  if n < 10 then Char.ofNat (48 + n) else Char.ofNat (87 + n)

/-- `hex::encode`: each byte becomes high nibble then low nibble. -/
def hexEncodeList (bs : List Nat) : List Char :=
  bs.flatMap fun b => [hexDigitChar (b / 16), hexDigitChar (b % 16)]

/-- `hex::encode` as a `String`. -/
def hexEncode (bs : HashCode) : String := String.mk (hexEncodeList bs)

/-- Value of one hex digit, accepting both cases as `hex::decode` does. -/
def hexDigitVal (c : Char) : Option Nat :=
  if 48 ≤ c.toNat ∧ c.toNat ≤ 57 then some (c.toNat - 48)
  else if 97 ≤ c.toNat ∧ c.toNat ≤ 102 then some (c.toNat - 87)
  else if 65 ≤ c.toNat ∧ c.toNat ≤ 70 then some (c.toNat - 55)
  else none

/-- `hex::decode`: fails on odd length or any non-hex character. -/
def hexDecodeList : List Char → Option (List Nat)
  | [] => some []
  | [_] => none
  | c1 :: c2 :: rest =>
    match hexDigitVal c1, hexDigitVal c2, hexDecodeList rest with
    | some h, some l, some bs => some ((16 * h + l) :: bs)
    | _, _, _ => none

/-- A character is a lowercase hex digit. -/
def isLowerHexChar (c : Char) : Bool :=
  (48 ≤ c.toNat && c.toNat ≤ 57) || (97 ≤ c.toNat && c.toNat ≤ 102)

/-! ### The `Proof` type and its derived comparisons -/

/-- `Proof<A>`: an optional payload plus a commitment.  The `derivative`
attributes make `Hash`, `PartialEq`, `Eq`, `PartialOrd`, `Ord` ignore the
`value` field; those derived operations are modelled below. -/
structure Proof (A : Type) where
  value : Option A
  hash : HashCode

/-- The derived `PartialEq`/`Eq` on `Proof`: compares only the `hash`
field (`value` is `#[derivative(PartialEq="ignore")]`). -/
def Proof.beq {A : Type} (p q : Proof A) : Bool := p.hash == q.hash

/-- Lexicographic comparison of byte strings, as the derived `Ord` on the
fixed-size digest array compares. -/
def compareBytes : List Nat → List Nat → Ordering
  | [], [] => .eq
  | [], _ :: _ => .lt
  | _ :: _, [] => .gt
  | a :: as_, b :: bs =>
    match compare a b with
    | .eq => compareBytes as_ bs
    | o => o

/-- The derived `PartialOrd` on `Proof`: compares only the `hash` field
(`value` is `#[derivative(PartialOrd="ignore")]`). -/
def Proof.partialCmp {A : Type} (p q : Proof A) : Ordering :=
  compareBytes p.hash q.hash

/-- `Ord` for `Option<A>` as in Rust: `None` sorts before `Some`, and
two `Some`s compare their contents. -/
def compareOption {A : Type} (cmpA : A → A → Ordering) :
    Option A → Option A → Ordering
  | none, none => .eq
  | none, some _ => .lt
  | some _, none => .gt
  | some a, some b => cmpA a b

/-- The derived `Ord` on `Proof`: the ignore list at `lib.rs:33` names
only `Hash`, `PartialEq` and `PartialOrd`, so derivative's generated
`Ord::cmp` compares the non-ignored fields in declaration order — the
`value` field (under `Option`'s ordering) first, then `hash`.  `cmpA`
is the `Ord` instance of the payload type `A`. -/
def Proof.cmp {A : Type} (cmpA : A → A → Ordering) (p q : Proof A) :
    Ordering :=
  match compareOption cmpA p.value q.value with
  | .eq => compareBytes p.hash q.hash
  | o => o

/-- The derived `Hash` on `Proof` feeds only the `hash` field to the
hasher (`value` is `#[derivative(Hash="ignore")]`); we model the hasher
as an arbitrary function of the fed bytes. -/
def Proof.hashWith {A : Type} (hasher : HashCode → Nat) (p : Proof A) : Nat :=
  hasher p.hash

/-! ### Serde serialization of `Proof` -/

/-- `impl Serialize for Proof`: for any enclosing serializer — modelled by
its `serialize_str` method `serStr` — the proof serializes by passing
exactly the lowercase hex of its commitment to `serialize_str`. -/
def Proof.serializeWith {A R : Type} (serStr : String → R) (p : Proof A) : R :=
  serStr (hexEncode p.hash)

/-- Outcome of `ProofVisitor::visit_str`.  `deError` is the serde error
path (returning `Err(E)`); `panic` models an `unwrap` panic. -/
inductive DeResult (A : Type) where
  | ok (p : Proof A)
  | deError
  | panic

/-- `ProofVisitor::visit_str`: `hex::decode(h).unwrap()` (panic on bad
hex), then `<[u8;20]>::try_from(v).unwrap()` (panic unless exactly 20
bytes); on success the proof carries no payload. -/
def visitStr (A : Type) (h : String) : DeResult A :=
  match hexDecodeList h.data with
  | none => .panic
  | some v => if v.length = 20 then .ok ⟨none, v⟩ else .panic

/-! ### The commitment primitive -/

/-- `fn hash<A: Serialize>(value: &A)`: digest of the canonical
serialization.  `hashStr` is the externally supplied SHA-1 primitive
(out of scope per the spec, hence a parameter); `ser` is the canonical
serializer `serde_json::to_string` for the given type. -/
def hash (hashStr : String → HashCode) {A : Type} (ser : A → String) (a : A) :
    HashCode :=
  hashStr (ser a)

/-! ### Errors (panic sites) -/

/-- The failure kinds of §7 of the spec; each models a concrete panic
site in the Rust code. -/
inductive Err where
  /-- `p.value.unwrap()` in `Prover::unauth` panics on a payload-less proof. -/
  | openOnUnauthenticatedProof
  /-- `self.next().unwrap()` in `Verifier::unauth` panics on an exhausted tape. -/
  | tapeExhausted
  /-- `assert_eq!(p.hash, hash_str(&v))` in `Verifier::unauth` panics on mismatch. -/
  | commitmentMismatch
  /-- `serde_json::from_str(&v).unwrap()` / `to_string(..).unwrap()` panics. -/
  | serializationFailure
deriving DecidableEq

/-! ### Prover and Verifier -/

/-- `pub struct Prover { tape: Vec<String> }`. -/
structure Prover where
  tape : List String
deriving DecidableEq

/-- `Prover::new()`: empty tape. -/
def Prover.new : Prover := ⟨[]⟩

/-- `pub struct Verifier<'at>(slice::Iter<'at, String>)`: the borrowed
tape together with the cursor position of the iterator. -/
structure Verifier where
  tape : List String
  pos : Nat
deriving DecidableEq

/-- `Prover::verify()`: a verifier borrowing the tape, cursor at 0. -/
def Prover.verify (s : Prover) : Verifier := ⟨s.tape, 0⟩

/-- `Prover::auth`: commits to the value and retains it as payload; the
tape is untouched. -/
def Prover.auth (hashStr : String → HashCode) {A : Type} (ser : A → String)
    (a : A) (s : Prover) : Proof A × Prover :=
  (⟨some a, hash hashStr ser a⟩, s)

/-- `Prover::unauth`: `p.value.unwrap()` (panic if no payload), push the
canonical serialization of the value, return the value. -/
def Prover.unauth {A : Type} (ser : A → String) (p : Proof A) (s : Prover) :
    Except Err (A × Prover) :=
  match p.value with
  | none => .error .openOnUnauthenticatedProof
  | some r => .ok (r, ⟨s.tape ++ [ser r]⟩)

/-- `Iterator::next` for `Verifier`: yields the entry under the cursor
and advances, or yields nothing once exhausted. -/
def Verifier.next (v : Verifier) : Option String × Verifier :=
  match v.tape[v.pos]? with
  | some e => (some e, ⟨v.tape, v.pos + 1⟩)
  | none => (none, v)

/-- `Verifier::auth`: commits to the value, discards it. -/
def Verifier.auth (hashStr : String → HashCode) {A : Type} (ser : A → String)
    (a : A) (v : Verifier) : Proof A × Verifier :=
  (⟨none, hash hashStr ser a⟩, v)

/-- `Verifier::unauth`: `self.next().unwrap()` (panic when the tape is
exhausted), `assert_eq!(p.hash, hash_str(&v))` (panic on commitment
mismatch), then `serde_json::from_str(&v).unwrap()` (panic when the
entry does not parse). -/
def Verifier.unauth (hashStr : String → HashCode) {A : Type}
    (deser : String → Option A) (p : Proof A) (v : Verifier) :
    Except Err (A × Verifier) :=
  match v.next with
  | (none, _) => .error .tapeExhausted
  | (some e, v') =>
    if p.hash = hashStr e then
      match deser e with
      | some a => .ok (a, v')
      | none => .error .serializationFailure
    else .error .commitmentMismatch

/-! ### The `Db` capability and traversal programs -/

/-- A universe of serializable types: the collection of types `A` with
`Serialize + DeserializeOwned` instances that a traversal mentions.
`ser` models `serde_json::to_string`, `deser` models
`serde_json::from_str` (`none` = decode failure). -/
structure Univ where
  Ty : Type
  El : Ty → Type
  ser : (t : Ty) → El t → String
  deser : (t : Ty) → String → Option (El t)

/-- The `Db` trait over state `σ`: polymorphic `auth`/`unauth`. -/
structure Db (F : Univ) (σ : Type) where
  auth : (t : F.Ty) → F.El t → σ → Proof (F.El t) × σ
  unauth : (t : F.Ty) → Proof (F.El t) → σ → Except Err (F.El t × σ)

/-- `impl Db for Prover`. -/
def proverDb (hashStr : String → HashCode) (F : Univ) : Db F Prover where
  auth t a s := Prover.auth hashStr (F.ser t) a s
  unauth t p s := Prover.unauth (F.ser t) p s

/-- `impl Db for Verifier`. -/
def verifierDb (hashStr : String → HashCode) (F : Univ) : Db F Verifier where
  auth t a v := Verifier.auth hashStr (F.ser t) a v
  unauth t p v := Verifier.unauth hashStr (F.deser t) p v

/-- A traversal function written against the `Db` capability, as a free
monad over the two operations: at each step it may call `auth` or
`unauth` at some type of the universe and continue with the answer. -/
inductive Prog (F : Univ) (ρ : Type) where
  | pure (r : ρ)
  | auth (t : F.Ty) (a : F.El t) (k : Proof (F.El t) → Prog F ρ)
  | unauth (t : F.Ty) (p : Proof (F.El t)) (k : F.El t → Prog F ρ)

/-- Run a traversal against a database capability, threading the state;
a panic in `unauth` aborts the run. -/
def runDb {F : Univ} {σ ρ : Type} (d : Db F σ) : Prog F ρ → σ → Except Err (ρ × σ)
  | .pure r, s => .ok (r, s)
  | .auth t a k, s =>
    let as_ := d.auth t a s
    runDb d (k as_.1) as_.2
  | .unauth t p k, s =>
    match d.unauth t p s with
    | .error e => .error e
    | .ok as_ => runDb d (k as_.1) as_.2

/-! ### The binary-tree example from the test module -/

/-- `enum Tree { Tip(u32), Bin(u32, Box<Proof<Tree>>, Box<Proof<Tree>>) }`.
`u32` values are modelled as `Nat`; the test only uses small constants,
so no wraparound arises. -/
inductive Tree where
  | tip (u : Nat)
  | bin (a : Nat) (l : Proof Tree) (r : Proof Tree)

/-- `enum Dir { L, R }`. -/
inductive Dir where
  | L
  | R

/-- `{"Tip":` -/
def tipTag : List Char := ['{', '"', 'T', 'i', 'p', '"', ':']

/-- `{"Bin":[` -/
def binTag : List Char := ['{', '"', 'B', 'i', 'n', '"', ':', '[']

/-- Modelled from the spec: the canonical serializer is the externally
supplied `serde_json::to_string`.  For the derived instances of `Tree`
it produces `{"Tip":N}` for `Tree::Tip(N)` and `{"Bin":[N,"H1","H2"]}`
for `Tree::Bin` — each boxed `Proof<Tree>` serializes (via the
`Serialize` impl above) as the lowercase hex text of its commitment. -/
def serTreeChars : Tree → List Char
  | .tip u => tipTag ++ Nat.toDigits 10 u ++ ['}']
  | .bin a l r =>
    binTag ++ Nat.toDigits 10 a ++ [',', '"'] ++ hexEncodeList l.hash ++
      ['"', ',', '"'] ++ hexEncodeList r.hash ++ ['"', ']', '}']

/-- `serde_json::to_string` for `Tree`, as a `String`. -/
def serTree (t : Tree) : String := String.mk (serTreeChars t)

/-- Consume an expected literal prefix. -/
def expectChars : List Char → List Char → Option (List Char)
  | [], cs => some cs
  | e :: es, c :: cs => if c = e then expectChars es cs else none
  | _ :: _, [] => none

/-- Is `c` a decimal digit? -/
def isDigitChar (c : Char) : Bool := 48 ≤ c.toNat && c.toNat ≤ 57

/-- Decimal value of a digit string. -/
def digitsToNat (cs : List Char) : Nat :=
  cs.foldl (fun n c => 10 * n + (c.toNat - 48)) 0

/-- Parse a nonempty run of decimal digits. -/
def parseNat (cs : List Char) : Option (Nat × List Char) :=
  match cs.takeWhile isDigitChar with
  | [] => none
  | ds => some (digitsToNat ds, cs.dropWhile isDigitChar)

/-- Parse a quoted commitment: the string content up to the closing
quote is fed through the `Proof` deserializer (`hex::decode` plus the
20-byte check of `ProofVisitor::visit_str`). -/
def parseHashHex (cs : List Char) : Option (HashCode × List Char) :=
  match hexDecodeList (cs.takeWhile fun c => c ≠ '"'),
      cs.dropWhile (fun c => c ≠ '"') with
  | some v, '"' :: rest => if v.length = 20 then some (v, rest) else none
  | _, _ => none

/-- Modelled from the spec: the external decoder `serde_json::from_str`
for `Tree`, on the canonical (compact) format produced by
`serTree`; a deserialized `Proof` carries no payload. -/
def parseTree (cs : List Char) : Option Tree :=
  match expectChars tipTag cs with
  | some cs1 =>
    match parseNat cs1 with
    | some (u, cs2) =>
      match expectChars ['}'] cs2 with
      | some [] => some (.tip u)
      | _ => none
    | none => none
  | none =>
    match expectChars binTag cs with
    | some cs1 =>
      match parseNat cs1 with
      | some (a, cs2) =>
        match expectChars [',', '"'] cs2 with
        | some cs3 =>
          match parseHashHex cs3 with
          | some (h1, cs4) =>
            match expectChars [',', '"'] cs4 with
            | some cs5 =>
              match parseHashHex cs5 with
              | some (h2, cs6) =>
                match expectChars [']', '}'] cs6 with
                | some [] => some (.bin a ⟨none, h1⟩ ⟨none, h2⟩)
                | _ => none
              | none => none
            | none => none
          | none => none
        | none => none
      | none => none
    | none => none

/-- `serde_json::from_str` for `Tree`, as a function of the `String`. -/
def deserTree (s : String) : Option Tree := parseTree s.data

/-- The universe containing exactly the serializable type `Tree` that
the example traversal mentions. -/
def TreeU : Univ where
  Ty := Unit
  El _ := Tree
  ser _ := serTree
  deser _ := deserTree

/-- `fn tip(u: u32) -> Tree`. -/
def tip (u : Nat) : Tree := .tip u

/-- `fn bin<D: Db>(db, a, l, r)`: authenticate both children, then build
the branch. -/
def bin {σ : Type} (db : Db TreeU σ) (a : Nat) (l r : Tree) (s : σ) :
    Tree × σ :=
  let (nl, s1) := db.auth () l s
  let (nr, s2) := db.auth () r s1
  (.bin a nl nr, s2)

/-- `fn at<D: Db>(db, t, p)`: walk the path, opening one authenticated
reference per step; reaching a `Tip` before the path is exhausted yields
`None`; at the path's end the node's value is returned. -/
def at' {σ : Type} (db : Db TreeU σ) :
    Tree → List Dir → σ → Except Err (Option Nat × σ)
  | .tip a, [], s => .ok (some a, s)
  | .bin a _ _, [], s => .ok (some a, s)
  | .tip _, _ :: _, s => .ok (none, s)
  | .bin _ l r, ele :: rest, s =>
    let nt := match ele with | .L => l | .R => r
    match db.unauth () nt s with
    | .error e => .error e
    | .ok (t', s') => at' db t' rest s'

/-- `fn go<D: Db>(db)` generalised over the looked-up path: build the
test tree `Bin(0, Bin(0, Tip 1, Tip 2), Tip 2)` and look up `p`. -/
def goPath {σ : Type} (db : Db TreeU σ) (p : List Dir) (s : σ) :
    Except Err (Option Nat × σ) :=
  let (y, s1) := bin db 0 (tip 1) (tip 2) s
  let (x, s2) := bin db 0 y (tip 2) s1
  at' db x p s2

/-- `fn go<D: Db>(db)` exactly as in the test: path `[L, R]`. -/
def go {σ : Type} (db : Db TreeU σ) (s : σ) : Except Err (Option Nat × σ) :=
  goPath db [.L, .R] s

/-! ### Capability-respecting programs

The Rust type system keeps `Proof`'s fields private outside the library,
so traversal code can neither forge a proof nor branch on the presence
of a payload.  In the embedding this discipline is expressed by a
similarity relation: a program is "written against the capability" when
it is self-similar, i.e. behaves uniformly when every proof is replaced
by one with the same commitment, and every opened value by one with the
same canonical serialization. -/

/-- A proof is honest: whatever payload it carries is a `good` value and
the stored commitment is the digest of that payload's canonical
serialization.  Every proof produced by `auth` is honest. -/
def ProofOk (hashStr : String → HashCode) (F : Univ)
    (good : (t : F.Ty) → F.El t → Prop) (t : F.Ty) (p : Proof (F.El t)) :
    Prop :=
  ∀ a, p.value = some a → good t a ∧ p.hash = hashStr (F.ser t a)

/-- Two proofs are similar when they carry the same commitment and both
are honest; the payloads may differ arbitrarily. -/
def ProofSim (hashStr : String → HashCode) (F : Univ)
    (good : (t : F.Ty) → F.El t → Prop) (t : F.Ty)
    (p p' : Proof (F.El t)) : Prop :=
  p.hash = p'.hash ∧ ProofOk hashStr F good t p ∧ ProofOk hashStr F good t p'

/-- Similarity of programs written against the capability: both sides
perform the same sequence of operations on similar (`sim`) good values
and similar proofs, and return equal results. -/
inductive SimProg (hashStr : String → HashCode) (F : Univ)
    (sim : (t : F.Ty) → F.El t → F.El t → Prop)
    (good : (t : F.Ty) → F.El t → Prop) {ρ : Type} :
    Prog F ρ → Prog F ρ → Prop where
  | pure (r : ρ) : SimProg hashStr F sim good (.pure r) (.pure r)
  | auth (t : F.Ty) (a a' : F.El t) (k k' : Proof (F.El t) → Prog F ρ)
      (ha : sim t a a') (hg : good t a) (hg' : good t a')
      (hk : ∀ p p', ProofSim hashStr F good t p p' →
        SimProg hashStr F sim good (k p) (k' p')) :
      SimProg hashStr F sim good (.auth t a k) (.auth t a' k')
  | unauth (t : F.Ty) (p p' : Proof (F.El t))
      (k k' : F.El t → Prog F ρ)
      (hp : ProofSim hashStr F good t p p')
      (hk : ∀ a a', sim t a a' → good t a → good t a' →
        SimProg hashStr F sim good (k a) (k' a')) :
      SimProg hashStr F sim good (.unauth t p k) (.unauth t p' k')

/-- The serde contract of the universe, relative to `sim` and `good`:
serialization does not distinguish similar values, and a good value's
canonical serialization parses back to a similar good value (on the
verifier side the parsed proofs carry no payload, which is why only
similarity, not equality, is guaranteed). -/
structure SerdeLawful (hashStr : String → HashCode) (F : Univ)
    (sim : (t : F.Ty) → F.El t → F.El t → Prop)
    (good : (t : F.Ty) → F.El t → Prop) : Prop where
  ser_eq : ∀ t a b, sim t a b → F.ser t a = F.ser t b
  deser_ser : ∀ t a, good t a →
    ∃ b, F.deser t (F.ser t a) = some b ∧ sim t a b ∧ good t b

/-- Modelled from the spec: the SHA-1 digest is an externally supplied,
out-of-scope primitive ("the concrete hash/serialization primitives
(treated as pluggable, externally supplied)"); theorems are stated over
an arbitrary digest `hashStr`, and this deterministic 20-byte digest
instantiates them at concrete inputs. -/
def digestModel (s : String) : HashCode :=
  List.replicate 19 0 ++ [s.data.foldl (fun n c => n * 31 + c.toNat) 7 % 256]

/-- A one-type universe (values `Nat`, serialized in unary) used to
instantiate the capability-generic theorems at concrete inputs. -/
@[reducible] def unaryU : Univ where
  Ty := Unit
  El _ := Nat
  ser _ n := String.mk (List.replicate n 'a')
  deser _ s := some s.data.length

/-- A tiny traversal against the capability: authenticate `2`, open the
resulting proof, return the opened value. -/
def unaryProg : Prog unaryU Nat :=
  .auth () 2 fun p => .unauth () p fun n => .pure n

/-- The disclosure tape produced by the prover-side run of the example
lookup along `[L, R]`: the serialized inner branch, then the serialized
leaf `Tip 2`.  (The payloads of proofs do not affect serialization, so
the entries are written with payload-less proofs.) -/
def tapeLR (hashStr : String → HashCode) : List String :=
  [serTree (.bin 0 ⟨none, hashStr (serTree (tip 1))⟩
      ⟨none, hashStr (serTree (tip 2))⟩),
    serTree (tip 2)]

/-- The disclosure tape produced by the prover-side runs of the example
lookups along `[R]` and `[R, R]`: just the serialized leaf `Tip 2`. -/
def tapeR : List String := [serTree (tip 2)]

/-- A successful prover run only ever appends to the tape. -/
theorem runProver_tape_extends {hashStr : String → HashCode} {F : Univ}
    {ρ : Type} (prog : Prog F ρ) :
    ∀ (tp : List String) (r : ρ) (s' : Prover),
      runDb (proverDb hashStr F) prog ⟨tp⟩ = .ok (r, s') →
      ∃ δ, s' = ⟨tp ++ δ⟩ := by
  induction prog with
  | pure r0 =>
    intro tp r s' h
    simp only [runDb] at h
    cases h
    exact ⟨[], by simp⟩
  | auth t a k ih =>
    intro tp r s' h
    simp only [runDb, proverDb, Prover.auth] at h
    exact ih _ tp r s' h
  | unauth t p k ih =>
    intro tp r s' h
    simp only [runDb, proverDb, Prover.unauth] at h
    cases hv : p.value with
    | none => rw [hv] at h; simp at h
    | some pr =>
      rw [hv] at h
      simp only at h
      obtain ⟨δ, hδ⟩ := ih pr (tp ++ [F.ser t pr]) r s' h
      exact ⟨F.ser t pr :: δ, by simpa using hδ⟩

/-- If dropping `i` gives a cons, the element at `i` is its head. -/
theorem getElem?_of_drop_cons {α : Type} :
    ∀ (l : List α) (i : Nat) (x : α) (r : List α),
      l.drop i = x :: r → l[i]? = some x := by
  intro l i
  induction i generalizing l with
  | zero => intro x r h; simp at h; simp [h]
  | succ n ih =>
    intro x r h
    cases l with
    | nil => simp at h
    | cons a l => simp at h ⊢; exact ih l x r h

/-- If dropping `i` gives a cons, dropping `i + 1` gives its tail. -/
theorem drop_succ_of_drop_cons {α : Type} :
    ∀ (l : List α) (i : Nat) (x : α) (r : List α),
      l.drop i = x :: r → l.drop (i + 1) = r := by
  intro l i
  induction i generalizing l with
  | zero => intro x r h; simp at h; simp [h]
  | succ n ih =>
    intro x r h
    cases l with
    | nil => simp at h
    | cons a l =>
      simp only [List.drop_succ_cons] at h ⊢
      exact ih l x r h

/-- Central simulation lemma: a successful prover run of a
capability-respecting program, appending `Δ` to the tape, is replayed
exactly by the verifier-side run over any tape whose unconsumed part
begins with `Δ`, which consumes precisely `Δ` and returns the same
result. -/
theorem runDb_sim {hashStr : String → HashCode} {F : Univ}
    {sim : (t : F.Ty) → F.El t → F.El t → Prop}
    {good : (t : F.Ty) → F.El t → Prop}
    (hlaw : SerdeLawful hashStr F sim good) {ρ : Type}
    {prog prog' : Prog F ρ}
    (hs : SimProg hashStr F sim good prog prog') :
    ∀ (tp Δ : List String) (r : ρ) (T rest : List String) (i : Nat),
      runDb (proverDb hashStr F) prog ⟨tp⟩ = .ok (r, ⟨tp ++ Δ⟩) →
      T.drop i = Δ ++ rest →
      runDb (verifierDb hashStr F) prog' ⟨T, i⟩ = .ok (r, ⟨T, i + Δ.length⟩) := by
  induction hs with
  | pure r0 =>
    intro tp Δ r T rest i hP hT
    simp only [runDb, Except.ok.injEq, Prod.mk.injEq, Prover.mk.injEq] at hP
    obtain ⟨hr, htp⟩ := hP
    have hΔ : Δ = [] := by
      have hlen := congrArg List.length htp
      simpa using hlen
    subst hr hΔ
    simp [runDb]
  | auth t a a' k k' ha hg hg' hk ih =>
    intro tp Δ r T rest i hP hT
    simp only [runDb, proverDb, Prover.auth, hash] at hP
    simp only [runDb, verifierDb, Verifier.auth, hash]
    refine ih _ _ ?_ tp Δ r T rest i hP hT
    refine ⟨congrArg hashStr (hlaw.ser_eq t a a' ha), ?_, ?_⟩
    · intro x hx
      cases hx
      exact ⟨hg, rfl⟩
    · intro x hx
      cases hx
  | unauth t p p' k k' hp hk ih =>
    intro tp Δ r T rest i hP hT
    obtain ⟨hhash, hokP, _⟩ := hp
    simp only [runDb, proverDb, Prover.unauth] at hP
    cases hv : p.value with
    | none => rw [hv] at hP; simp at hP
    | some pr =>
      rw [hv] at hP
      simp only at hP
      obtain ⟨hgpr, hphash⟩ := hokP pr hv
      obtain ⟨b, hdeser, hsimb, hgb⟩ := hlaw.deser_ser t pr hgpr
      obtain ⟨δ, hδ⟩ :=
        runProver_tape_extends (k pr) (tp ++ [F.ser t pr]) r _ hP
      have hΔ : Δ = F.ser t pr :: δ := by
        have : tp ++ Δ = tp ++ (F.ser t pr :: δ) := by
          have := congrArg Prover.tape hδ
          simpa [List.append_assoc] using this
        exact List.append_cancel_left this
      subst hΔ
      have hget : T[i]? = some (F.ser t pr) :=
        getElem?_of_drop_cons T i _ _ (by simpa using hT)
      have hdropT : T.drop (i + 1) = δ ++ rest :=
        drop_succ_of_drop_cons T i _ _ (by simpa using hT)
      have hP' : runDb (proverDb hashStr F) (k pr) ⟨tp ++ [F.ser t pr]⟩ =
          .ok (r, ⟨(tp ++ [F.ser t pr]) ++ δ⟩) := by
        have heq : (tp ++ [F.ser t pr]) ++ δ = tp ++ F.ser t pr :: δ := by simp
        rw [heq]
        exact hP
      have hrec := ih pr b hsimb hgpr hgb (tp ++ [F.ser t pr]) δ r T rest
        (i + 1) hP' hdropT
      simp only [runDb, verifierDb, Verifier.unauth, Verifier.next, hget]
      rw [if_pos (by rw [← hhash, hphash]), hdeser]
      have harith : i + (F.ser t pr :: δ).length = i + 1 + δ.length := by
        simp; omega
      rw [harith]
      exact hrec

/-! ### Facts about hex encoding and the canonical `Tree` codec -/

/-- Decoding inverts encoding on a single nibble. -/
theorem hexDigitVal_hexDigitChar :
    ∀ n : Fin 16, hexDigitVal (hexDigitChar n.val) = some n.val := by
  decide

/-- Encoded nibbles are lowercase hex characters. -/
theorem isLowerHexChar_hexDigitChar :
    ∀ n : Fin 16, isLowerHexChar (hexDigitChar n.val) = true := by
  decide

/-- Encoded nibbles are never a double quote. -/
theorem hexDigitChar_ne_quote : ∀ n : Fin 16, hexDigitChar n.val ≠ '"' := by
  decide

/-- `hex::decode` inverts `hex::encode` on byte strings. -/
theorem hexDecodeList_hexEncodeList :
    ∀ bs : List Nat, (∀ b ∈ bs, b < 256) →
      hexDecodeList (hexEncodeList bs) = some bs := by
  intro bs
  induction bs with
  | nil => intro _; rfl
  | cons b bs ih =>
    intro hb
    have hb256 : b < 256 := hb b (by simp)
    have hhi : b / 16 < 16 := by omega
    have hlo : b % 16 < 16 := by omega
    have e1 := hexDigitVal_hexDigitChar ⟨b / 16, hhi⟩
    have e2 := hexDigitVal_hexDigitChar ⟨b % 16, hlo⟩
    simp only [hexEncodeList, List.flatMap_cons, List.cons_append,
      List.nil_append] at *
    simp only [hexDecodeList, e1, e2, ih fun x hx => hb x (by simp [hx])]
    have hb' : 16 * (b / 16) + b % 16 = b := by omega
    rw [hb']

/-- Every character of a hex encoding is a lowercase hex digit. -/
theorem hexEncodeList_lower :
    ∀ bs : List Nat, (∀ b ∈ bs, b < 256) →
      ∀ c ∈ hexEncodeList bs, isLowerHexChar c = true := by
  intro bs
  induction bs with
  | nil => intro _ c hc; simp [hexEncodeList] at hc
  | cons b bs ih =>
    intro hb c hc
    have hb256 : b < 256 := hb b (by simp)
    simp only [hexEncodeList, List.flatMap_cons, List.cons_append,
      List.nil_append, List.mem_cons] at hc
    rcases hc with h | h | h
    · exact h ▸ isLowerHexChar_hexDigitChar ⟨b / 16, by omega⟩
    · exact h ▸ isLowerHexChar_hexDigitChar ⟨b % 16, by omega⟩
    · exact ih (fun x hx => hb x (by simp [hx])) c h

/-- No character of a hex encoding is a double quote. -/
theorem hexEncodeList_ne_quote :
    ∀ bs : List Nat, (∀ b ∈ bs, b < 256) →
      ∀ c ∈ hexEncodeList bs, c ≠ '"' := by
  intro bs
  induction bs with
  | nil => intro _ c hc; simp [hexEncodeList] at hc
  | cons b bs ih =>
    intro hb c hc
    have hb256 : b < 256 := hb b (by simp)
    simp only [hexEncodeList, List.flatMap_cons, List.cons_append,
      List.nil_append, List.mem_cons] at hc
    rcases hc with h | h | h
    · exact h ▸ hexDigitChar_ne_quote ⟨b / 16, by omega⟩
    · exact h ▸ hexDigitChar_ne_quote ⟨b % 16, by omega⟩
    · exact ih (fun x hx => hb x (by simp [hx])) c h

/-- `takeWhile` runs to the first failing element. -/
theorem takeWhile_append_stop {α : Type} (p : α → Bool) :
    ∀ (xs : List α) (y : α) (rest : List α), (∀ c ∈ xs, p c = true) →
      p y = false → ((xs ++ y :: rest).takeWhile p = xs
        ∧ (xs ++ y :: rest).dropWhile p = y :: rest) := by
  intro xs
  induction xs with
  | nil =>
    intro y rest _ hy
    simp [List.takeWhile_cons, List.dropWhile_cons, hy]
  | cons x xs ih =>
    intro y rest hx hy
    have hpx : p x = true := hx x (by simp)
    have := ih y rest (fun c hc => hx c (by simp [hc])) hy
    simp [List.takeWhile_cons, List.dropWhile_cons, hpx, this.1, this.2]

/-- The quoted-commitment parser inverts hex encoding followed by a
closing quote, for well-formed digests. -/
theorem parseHashHex_hexEncode (h : HashCode) (hwf : h.Wf)
    (rest : List Char) :
    parseHashHex (hexEncodeList h ++ '"' :: rest) = some (h, rest) := by
  obtain ⟨hlen, hbytes⟩ := hwf
  have hnq : ∀ c ∈ hexEncodeList h, (decide ¬(c = '"')) = true := by
    intro c hc
    simpa using hexEncodeList_ne_quote h hbytes c hc
  have hq : (decide ¬(('"' : Char) = '"')) = false := by decide
  have hsplit := takeWhile_append_stop (fun c => decide ¬(c = '"'))
    (hexEncodeList h) '"' rest hnq hq
  unfold parseHashHex
  rw [show (fun c : Char => decide ¬(c = '"')) = (fun c : Char => c ≠ '"')
    from rfl] at hsplit
  rw [hsplit.1, hsplit.2, hexDecodeList_hexEncodeList h hbytes]
  simp [hlen]

/-- The canonical serialization of a leaf parses back to the leaf. -/
theorem parseTree_serTip1 : parseTree (serTreeChars (tip 1)) = some (tip 1) :=
  rfl

/-- The canonical serialization of the leaf `Tip 2` parses back. -/
theorem parseTree_serTip2 : parseTree (serTreeChars (tip 2)) = some (tip 2) :=
  rfl

/-- The canonical serialization of a branch labelled `0` parses back to
the same branch with payload-less child proofs, for any child proofs
with well-formed commitments. -/
theorem parseTree_serBin0 (l r : Proof Tree) (hl : l.hash.Wf)
    (hr : r.hash.Wf) :
    parseTree (serTreeChars (.bin 0 l r)) =
      some (.bin 0 ⟨none, l.hash⟩ ⟨none, r.hash⟩) := by
  have hd : Nat.toDigits 10 0 = ['0'] := rfl
  have e1 : ∀ tail : List Char,
      expectChars tipTag ('{' :: '"' :: 'B' :: tail) = none := fun _ => rfl
  have e2 : ∀ tail : List Char,
      expectChars binTag
        ('{' :: '"' :: 'B' :: 'i' :: 'n' :: '"' :: ':' :: '[' :: tail) =
      some tail := fun _ => rfl
  have hp : ∀ tail : List Char,
      parseNat ('0' :: ',' :: '"' :: tail) =
        some (0, ',' :: '"' :: tail) := fun _ => rfl
  have e3 : ∀ tail : List Char,
      expectChars [',', '"'] (',' :: '"' :: tail) = some tail := fun _ => rfl
  have e4 : expectChars [']', '}'] [']', '}'] = some [] := rfl
  simp only [serTreeChars]
  rw [hd]
  simp only [binTag, List.append_assoc, List.cons_append, List.nil_append]
  simp only [parseTree, e1, e2, hp, e3, parseHashHex_hexEncode l.hash hl,
    parseHashHex_hexEncode r.hash hr, e4]

/-- The concrete digest model produces well-formed digests. -/
theorem digestModel_wf : ∀ s, (digestModel s).Wf := by
  intro s
  refine ⟨by simp [digestModel], ?_⟩
  intro b hb
  unfold digestModel at hb
  rcases List.mem_append.mp hb with h | h
  · have := List.eq_of_mem_replicate h
    omega
  · have hb' : b = s.data.foldl (fun n c => n * 31 + c.toNat) 7 % 256 := by
      simpa using h
    rw [hb']
    exact Nat.mod_lt _ (by norm_num)

/-- Equations aligning `serTree` with its character-level form. -/
theorem serTree_data : ∀ t : Tree, (serTree t).data = serTreeChars t :=
  fun _ => rfl

/-- C8 (amended): the example scenario, all paths, both sides: the tree is
`Bin(0, Bin(0, Tip 1, Tip 2), Tip 2)`; looking up `[L, R]` yields `2` on
the prover and on a verifier fed the prover's tape; `[R]` yields `2` on
both sides; `[R, R]` runs into the leaf `Tip 2` before the path ends and
yields the absence result `none` on both sides. -/
theorem end_to_end_all_paths (hashStr : String → HashCode)
    (hwf : ∀ s, (hashStr s).Wf) :
    (goPath (proverDb hashStr TreeU) [.L, .R] Prover.new =
        .ok (some 2, ⟨tapeLR hashStr⟩)
      ∧ goPath (verifierDb hashStr TreeU) [.L, .R]
          (Prover.verify ⟨tapeLR hashStr⟩) =
        .ok (some 2, ⟨tapeLR hashStr, 2⟩))
    ∧ (goPath (proverDb hashStr TreeU) [.R] Prover.new =
        .ok (some 2, ⟨tapeR⟩)
      ∧ goPath (verifierDb hashStr TreeU) [.R] (Prover.verify ⟨tapeR⟩) =
        .ok (some 2, ⟨tapeR, 1⟩))
    ∧ (goPath (proverDb hashStr TreeU) [.R, .R] Prover.new =
        .ok (none, ⟨tapeR⟩)
      ∧ goPath (verifierDb hashStr TreeU) [.R, .R] (Prover.verify ⟨tapeR⟩) =
        .ok (none, ⟨tapeR, 1⟩)) := by
  have hTip2 : parseTree (serTreeChars (Tree.tip 2)) = some (Tree.tip 2) := rfl
  have hL := parseTree_serBin0 ⟨none, hashStr (serTree (Tree.tip 1))⟩
    ⟨none, hashStr (serTree (Tree.tip 2))⟩ (hwf _) (hwf _)
  refine ⟨⟨rfl, ?_⟩, ⟨rfl, ?_⟩, ⟨rfl, ?_⟩⟩
  · simp only [goPath, bin, at', verifierDb, Verifier.auth, Verifier.unauth,
      Verifier.next, hash, TreeU, Prover.verify, tapeLR, tip, deserTree,
      serTree_data, hL, hTip2, List.getElem?_cons_zero,
      List.getElem?_cons_succ, if_true, eq_self_iff_true]
  · simp only [goPath, bin, at', verifierDb, Verifier.auth, Verifier.unauth,
      Verifier.next, hash, TreeU, Prover.verify, tapeR, tip, deserTree,
      serTree_data, hTip2, List.getElem?_cons_zero, List.getElem?_cons_succ,
      if_true, eq_self_iff_true]
  · simp only [goPath, bin, at', verifierDb, Verifier.auth, Verifier.unauth,
      Verifier.next, hash, TreeU, Prover.verify, tapeR, tip, deserTree,
      serTree_data, hTip2, List.getElem?_cons_zero, List.getElem?_cons_succ,
      if_true, eq_self_iff_true]

/-! ### The claims -/

/-- C5: `commit` is deterministic — it is the digest of the value's
canonical serialization, so equal serializations give equal commitments
and recomputation gives an identical digest — and both `auth`
implementations set the returned proof's commitment to `commit(value)`,
the prover retaining the value as payload and the verifier returning a
payload-less proof. -/
theorem commit_deterministic_auth_commits (hashStr : String → HashCode)
    (F : Univ) (t : F.Ty) (a b : F.El t) (s : Prover) (v : Verifier) :
    (hash hashStr (F.ser t) a = hashStr (F.ser t a))
    ∧ (F.ser t a = F.ser t b →
        hash hashStr (F.ser t) a = hash hashStr (F.ser t) b)
    ∧ (proverDb hashStr F).auth t a s = (⟨some a, hash hashStr (F.ser t) a⟩, s)
    ∧ (verifierDb hashStr F).auth t a v =
        (⟨none, hash hashStr (F.ser t) a⟩, v) := by
  refine ⟨rfl, ?_, rfl, rfl⟩
  intro h
  unfold hash
  rw [h]

/-- Witness for C5 at the concrete digest model and `Tree` universe. -/
theorem commit_deterministic_auth_commits_witness :
    hash digestModel (TreeU.ser ()) (tip 1) =
      hash digestModel (TreeU.ser ()) (tip 1) :=
  (commit_deterministic_auth_commits digestModel TreeU () (tip 1) (tip 1)
    Prover.new Prover.new.verify).2.1 rfl

/-- C6: the prover's tape starts empty and is mutated only by `unauth`:
`auth` leaves the state unchanged, and `unauth` on a payload-carrying
proof appends exactly one entry — the canonical serialization of the
returned value — at the end of the tape. -/
theorem prover_tape_append_only (hashStr : String → HashCode) (F : Univ)
    (t : F.Ty) (a : F.El t) (p : Proof (F.El t)) (r : F.El t) (s : Prover) :
    Prover.new.tape = []
    ∧ ((proverDb hashStr F).auth t a s).2 = s
    ∧ (p.value = some r →
        (proverDb hashStr F).unauth t p s =
          .ok (r, ⟨s.tape ++ [F.ser t r]⟩)) := by
  refine ⟨rfl, rfl, ?_⟩
  intro h
  simp [proverDb, Prover.unauth, h]

/-- Witness for C6: opening a proof of `Tip 1` over the tape `["x"]`. -/
theorem prover_tape_append_only_witness :
    (proverDb digestModel TreeU).unauth () ⟨some (tip 1), []⟩ ⟨["x"]⟩ =
      .ok (tip 1, ⟨["x"] ++ [TreeU.ser () (tip 1)]⟩) :=
  (prover_tape_append_only digestModel TreeU () (tip 1) ⟨some (tip 1), []⟩
    (tip 1) ⟨["x"]⟩).2.2 rfl

/-- C7: `Prover::unauth` fails (with the open-on-unauthenticated-proof
contract violation) exactly when the proof carries no payload, returns
the payload otherwise, and every proof produced by `Prover::auth`
carries a payload, so the failure is unreachable for proofs produced by
the same database. -/
theorem prover_unauth_payload_contract (hashStr : String → HashCode)
    (F : Univ) (t : F.Ty) (p : Proof (F.El t)) (a : F.El t) (s s' : Prover) :
    ((proverDb hashStr F).unauth t p s =
        .error .openOnUnauthenticatedProof ↔ p.value = none)
    ∧ (∀ r, p.value = some r →
        (proverDb hashStr F).unauth t p s =
          .ok (r, ⟨s.tape ++ [F.ser t r]⟩))
    ∧ (((proverDb hashStr F).auth t a s).1.value = some a)
    ∧ ((proverDb hashStr F).unauth t ((proverDb hashStr F).auth t a s).1 s' =
        .ok (a, ⟨s'.tape ++ [F.ser t a]⟩)) := by
  refine ⟨?_, ?_, rfl, ?_⟩
  · cases hv : p.value with
    | none => simp [proverDb, Prover.unauth, hv]
    | some r => simp [proverDb, Prover.unauth, hv]
  · intro r hr
    simp [proverDb, Prover.unauth, hr]
  · simp [proverDb, Prover.auth, Prover.unauth]

/-- Witness for C7: opening a proof of `Tip 2` over the empty tape. -/
theorem prover_unauth_payload_contract_witness :
    (proverDb digestModel TreeU).unauth () ⟨some (tip 2), []⟩ ⟨[]⟩ =
      .ok (tip 2, ⟨[] ++ [TreeU.ser () (tip 2)]⟩) :=
  (prover_unauth_payload_contract digestModel TreeU () ⟨some (tip 2), []⟩
    (tip 2) ⟨[]⟩ ⟨[]⟩).2.1 (tip 2) rfl

/-- C9: `Prover::unauth` performs no integrity check: on any
payload-carrying proof it succeeds, returns the payload and appends the
payload's serialization — also when the stored commitment differs from
the digest of that payload's serialization. -/
theorem prover_unauth_no_integrity_check (hashStr : String → HashCode)
    (F : Univ) (t : F.Ty) (r : F.El t) (h : HashCode) (s : Prover) :
    ((proverDb hashStr F).unauth t ⟨some r, h⟩ s =
        .ok (r, ⟨s.tape ++ [F.ser t r]⟩))
    ∧ (h ≠ hashStr (F.ser t r) →
        (proverDb hashStr F).unauth t ⟨some r, h⟩ s =
          .ok (r, ⟨s.tape ++ [F.ser t r]⟩)) := by
  refine ⟨?_, fun _ => ?_⟩ <;> simp [proverDb, Prover.unauth]

/-- Witness for C9: the empty commitment is wrong for `Tip 1`, yet the
prover-side open succeeds. -/
theorem prover_unauth_no_integrity_check_witness :
    ([] : HashCode) ≠ digestModel (TreeU.ser () (tip 1))
    ∧ (proverDb digestModel TreeU).unauth () ⟨some (tip 1), []⟩ ⟨["w"]⟩ =
        .ok (tip 1, ⟨["w"] ++ [TreeU.ser () (tip 1)]⟩) :=
  ⟨by decide,
    (prover_unauth_no_integrity_check digestModel TreeU () (tip 1) []
      ⟨["w"]⟩).2 (by decide)⟩

/-- C3 (code bug): at equal commitments `[5]`, the derived equality,
hashing and partial ordering compare a payload-carrying proof and a
payload-less proof as equal — but the derived total ordering does not:
`Ord` is missing from the ignore list at `lib.rs:33`, so `Ord::cmp`
compares the `value` field first and the payload-carrying proof sorts
strictly greater (`Some > None`), contradicting the claim (and the
spec's §9 requirement that the payload be excluded from all derived
comparison logic). -/
theorem proof_ord_compares_payload :
    Proof.beq (⟨some 1, [5]⟩ : Proof Nat) ⟨none, [5]⟩ = true
    ∧ Proof.partialCmp (⟨some 1, [5]⟩ : Proof Nat) ⟨none, [5]⟩ = .eq
    ∧ Proof.hashWith List.length (⟨some 1, [5]⟩ : Proof Nat) =
        @Proof.hashWith Nat List.length ⟨none, [5]⟩
    ∧ Proof.cmp compare (⟨some 1, [5]⟩ : Proof Nat) ⟨none, [5]⟩ = .gt
    ∧ Proof.cmp compare (⟨some 1, [5]⟩ : Proof Nat) ⟨none, [5]⟩ ≠ .eq := by
  refine ⟨by decide, by decide, rfl, by decide, by decide⟩

/-- C2: the verifier's `unauth`: with every tape entry consumed it
fails with the tape-exhausted error; with the next entry's recomputed
digest differing from the proof's commitment it fails with the
commitment mismatch; otherwise it advances the cursor by exactly one
and returns the parsed entry. -/
theorem verifier_unauth_cases (hashStr : String → HashCode) (F : Univ)
    (t : F.Ty) (p : Proof (F.El t)) (T : List String) (i : Nat) :
    (T.length ≤ i →
      (verifierDb hashStr F).unauth t p ⟨T, i⟩ = .error .tapeExhausted)
    ∧ (∀ e, T[i]? = some e → p.hash ≠ hashStr e →
      (verifierDb hashStr F).unauth t p ⟨T, i⟩ = .error .commitmentMismatch)
    ∧ (∀ e a, T[i]? = some e → p.hash = hashStr e → F.deser t e = some a →
      (verifierDb hashStr F).unauth t p ⟨T, i⟩ = .ok (a, ⟨T, i + 1⟩)) := by
  refine ⟨?_, ?_, ?_⟩
  · intro hi
    have hnone : T[i]? = none := List.getElem?_eq_none hi
    simp [verifierDb, Verifier.unauth, Verifier.next, hnone]
  · intro e he hne
    simp [verifierDb, Verifier.unauth, Verifier.next, he, hne]
  · intro e a he hh hd
    simp [verifierDb, Verifier.unauth, Verifier.next, he, hh, hd]

/-- Witness for C2: all three outcomes at concrete tapes. -/
theorem verifier_unauth_cases_witness :
    (verifierDb digestModel TreeU).unauth () ⟨none, []⟩ ⟨[], 0⟩ =
        .error .tapeExhausted
    ∧ (verifierDb digestModel TreeU).unauth () ⟨none, []⟩
        ⟨[serTree (tip 1)], 0⟩ = .error .commitmentMismatch
    ∧ (verifierDb digestModel TreeU).unauth ()
        ⟨none, digestModel (serTree (tip 1))⟩ ⟨[serTree (tip 1)], 0⟩ =
        .ok (tip 1, ⟨[serTree (tip 1)], 1⟩) :=
  ⟨(verifier_unauth_cases digestModel TreeU () ⟨none, []⟩ [] 0).1 (by simp),
    (verifier_unauth_cases digestModel TreeU () ⟨none, []⟩
      [serTree (tip 1)] 0).2.1 (serTree (tip 1)) rfl (by decide),
    (verifier_unauth_cases digestModel TreeU ()
      ⟨none, digestModel (serTree (tip 1))⟩ [serTree (tip 1)] 0).2.2
      (serTree (tip 1)) (tip 1) rfl rfl rfl⟩

/-- C10: `Proof` deserialization is partial at the public interface:
inputs that are not valid hex, or whose decoded length is not the
20-byte digest width, make the visitor panic (`unwrap`); the serde
error return is never used. -/
theorem proof_deserialize_panics (A : Type) (h : String) :
    (hexDecodeList h.data = none → visitStr A h = .panic)
    ∧ (∀ v, hexDecodeList h.data = some v → v.length ≠ 20 →
        visitStr A h = .panic)
    ∧ visitStr A h ≠ .deError := by
  refine ⟨?_, ?_, ?_⟩
  · intro hd
    simp [visitStr, hd]
  · intro v hd hl
    simp [visitStr, hd, hl]
  · unfold visitStr
    cases hexDecodeList h.data with
    | none => simp
    | some v =>
      by_cases hv : v.length = 20 <;> simp [hv]

/-- Witness for C10: `"zz"` is not hex; `"abcd"` decodes to 2 bytes. -/
theorem proof_deserialize_panics_witness :
    visitStr Nat "zz" = .panic ∧ visitStr Nat "abcd" = .panic :=
  ⟨(proof_deserialize_panics Nat "zz").1 rfl,
    (proof_deserialize_panics Nat "abcd").2.1 [171, 205] rfl (by decide)⟩

/-- C4: a proof serializes, under any enclosing serializer, to exactly
the lowercase hex text of its commitment, and deserializing that text
yields a payload-less proof with the same commitment. -/
theorem proof_serialization_roundtrip (A R : Type) (serStr : String → R)
    (p : Proof A) (hwf : p.hash.Wf) :
    (Proof.serializeWith serStr p = serStr (hexEncode p.hash))
    ∧ (∀ c ∈ (hexEncode p.hash).data, isLowerHexChar c = true)
    ∧ (visitStr A (hexEncode p.hash) = .ok ⟨none, p.hash⟩) := by
  obtain ⟨hlen, hbytes⟩ := hwf
  refine ⟨rfl, ?_, ?_⟩
  · intro c hc
    exact hexEncodeList_lower p.hash hbytes c
      (by simpa [hexEncode] using hc)
  · unfold visitStr
    rw [show (hexEncode p.hash).data = hexEncodeList p.hash from rfl,
      hexDecodeList_hexEncodeList p.hash hbytes]
    simp [hlen]

/-- Witness for C4 at the all-zero digest. -/
theorem proof_serialization_roundtrip_witness :
    Proof.serializeWith id (⟨some 7, List.replicate 20 0⟩ : Proof Nat) =
        id (hexEncode (List.replicate 20 0))
    ∧ visitStr Nat (hexEncode (List.replicate 20 0)) =
        .ok ⟨none, List.replicate 20 0⟩ := by
  have h := proof_serialization_roundtrip Nat String id
    ⟨some 7, List.replicate 20 0⟩ (by decide)
  exact ⟨h.1, h.2.2⟩

/-- C1: prover/verifier equivalence.  For every traversal function
written against the `Db` capability (a self-similar program over a
universe obeying the serde contract), a successful run against a fresh
prover yielding result `r` and tape `s'.tape` is matched by the run of
the same program against the verifier `s'.verify` built from that tape:
it succeeds, consumes the whole tape, and returns the same `r`. -/
theorem prover_verifier_equivalence (hashStr : String → HashCode)
    (F : Univ) (sim : (t : F.Ty) → F.El t → F.El t → Prop)
    (good : (t : F.Ty) → F.El t → Prop)
    (hlaw : SerdeLawful hashStr F sim good) {ρ : Type}
    (prog : Prog F ρ) (hself : SimProg hashStr F sim good prog prog)
    (r : ρ) (s' : Prover)
    (hP : runDb (proverDb hashStr F) prog Prover.new = .ok (r, s')) :
    runDb (verifierDb hashStr F) prog s'.verify =
      .ok (r, ⟨s'.tape, s'.tape.length⟩) := by
  obtain ⟨Δ, hΔ⟩ := runProver_tape_extends prog [] r s' hP
  subst hΔ
  have hP' : runDb (proverDb hashStr F) prog ⟨[]⟩ = .ok (r, ⟨[] ++ Δ⟩) := hP
  have hout := runDb_sim hlaw hself [] Δ r ([] ++ Δ) [] 0 hP' (by simp)
  simpa [Prover.verify] using hout

/-- Witness for C1: the unary-universe program `auth 2; unauth; return`
replayed against the tape it produces. -/
theorem prover_verifier_equivalence_witness :
    runDb (verifierDb digestModel unaryU) unaryProg
      (Prover.verify ⟨[String.mk (List.replicate 2 'a')]⟩) =
      .ok (2, ⟨[String.mk (List.replicate 2 'a')], 1⟩) := by
  have hlaw : SerdeLawful digestModel unaryU (fun _ a b => a = b)
      (fun _ _ => True) := by
    constructor
    · intro t a b hab
      rw [hab]
    · intro t a _
      exact ⟨a, by simp, rfl, trivial⟩
  have hself : SimProg digestModel unaryU (fun _ a b => a = b)
      (fun _ _ => True) unaryProg unaryProg := by
    apply SimProg.auth _ _ _ _ _ rfl trivial trivial
    intro p p' hpp
    refine SimProg.unauth _ _ _ _ _ hpp ?_
    intro a a' haa _ _
    cases haa
    exact SimProg.pure a
  exact prover_verifier_equivalence digestModel unaryU _ _ hlaw unaryProg
    hself 2 ⟨[String.mk (List.replicate 2 'a')]⟩ rfl

/-- C8 counterexample: on the example tree, the path lookup `[R]` does
not produce an absence result — it returns the value `2`, identically
on the prover and on a verifier fed the prover's tape. -/
theorem right_path_lookup_yields_value :
    goPath (proverDb digestModel TreeU) [.R] Prover.new =
        .ok (some 2, ⟨tapeR⟩)
    ∧ goPath (verifierDb digestModel TreeU) [.R] (Prover.verify ⟨tapeR⟩) =
        .ok (some 2, ⟨tapeR, 1⟩)
    ∧ some 2 ≠ (none : Option Nat) :=
  ⟨rfl, rfl, by simp⟩

/-- Witness for C8 (amended): the `[L, R]` lookup replayed against the
prover's tape under the concrete digest model. -/
theorem end_to_end_all_paths_witness :
    goPath (verifierDb digestModel TreeU) [.L, .R]
      (Prover.verify ⟨tapeLR digestModel⟩) =
      .ok (some 2, ⟨tapeLR digestModel, 2⟩) :=
  ((end_to_end_all_paths digestModel digestModel_wf).1).2

end AuthRs
